import Mathlib

/-!
Verification of the Game-of-Life grid engine (`src/lib.rs`).

The Rust code is shallowly embedded: `u32` values become `Nat` (all intermediate
arithmetic in the claims' domain stays far below `2^32`, so wrapping never
occurs on the inputs considered), `Vec<Cell>` becomes `List Cell`, and the
panicking indexing operations `self.cells[idx]` / `next[idx] = v` become
`Option`-returning reads and writes, so that a panic is `none` and totality
is provable rather than assumed.
-/

namespace GoL

/-- Model of `Cell` from the source: `Dead = 0`, `Alive = 1` (`#[repr(u8)]`). -/
inductive Cell where
  | Dead : Cell
  | Alive : Cell
deriving Repr, DecidableEq

/-- The numeric value of a cell (`cell as u8` in the source). -/
def Cell.toNat : Cell → Nat
  | Cell.Dead => 0
  | Cell.Alive => 1

/-- Model of `Universe` from the source: width, height, and the flattened cell buffer. -/
structure Universe where
  width : Nat
  height : Nat
  cells : List Cell
deriving Repr, DecidableEq

/-- Model of `Universe::get_index`: row-major linear index `row * width + column`. -/
def Universe.get_index (u : Universe) (row column : Nat) : Nat :=
  row * u.width + column

/-- Model of `Universe::live_neighbor_count`, embedded with `Option` to model the
panicking bounds check of `self.cells[idx]`: iterate over
`delta_row ∈ [height-1, 0, 1]` and `delta_col ∈ [width-1, 0, 1]`, skip
`(0, 0)`, wrap coordinates with `%`, and accumulate the numeric cell value. -/
def Universe.live_neighbor_count (u : Universe) (row column : Nat) : Option Nat :=
  [u.height - 1, 0, 1].foldlM (fun count delta_row =>
    [u.width - 1, 0, 1].foldlM (fun count delta_col =>
      if delta_row = 0 ∧ delta_col = 0 then
        pure count
      else
        (u.cells[u.get_index ((row + delta_row) % u.height)
          ((column + delta_col) % u.width)]?).map (fun c => count + c.toNat)) count) 0

/-- The indexed write `next[idx] = v` of the source: `none` models the
out-of-bounds panic. -/
def setCell (l : List Cell) (idx : Nat) (c : Cell) : Option (List Cell) :=
  if idx < l.length then some (l.set idx c) else none

/-- The `match (cell, live_neighbors)` of `Universe::tick`, arm by arm:
underpopulation, stasis, overpopulation, reproduction, otherwise unchanged. -/
def nextCellOf (cell : Cell) (live_neighbors : Nat) : Cell :=
  match cell, live_neighbors with
  | Cell.Alive, x =>
      if x < 2 then Cell.Dead
      else if x = 2 ∨ x = 3 then Cell.Alive
      else if x > 3 then Cell.Dead
      else cell
  | Cell.Dead, 3 => Cell.Alive
  | Cell.Dead, _ => cell

/-- Model of `Universe::tick`, embedded with `Option` for the panicking reads/writes:
copy the buffer, recompute every cell from the pre-tick state, swap in the
result. -/
def Universe.tick (u : Universe) : Option Universe := do
  let next ← (List.range u.height).foldlM (fun next row =>
    (List.range u.width).foldlM (fun next col => do
      let cell ← u.cells[u.get_index row col]?
      let live_neighbors ← u.live_neighbor_count row col
      setCell next (u.get_index row col) (nextCellOf cell live_neighbors)) next) u.cells
  pure { u with cells := next }

/-- Iterated `tick`, for stating invariants over any number of generations. -/
def Universe.tickN : Nat → Universe → Option Universe
  | 0, u => some u
  | n + 1, u => do
    let u' ← u.tick
    Universe.tickN n u'

/-- Model of `Universe::new`: 64×64 grid, cell `i` alive iff `i % 2 == 0 || i % 7 == 0`. -/
def Universe.new : Universe :=
  { width := 64
    height := 64
    cells := (List.range (64 * 64)).map (fun i =>
      if i % 2 = 0 ∨ i % 7 = 0 then Cell.Alive else Cell.Dead) }

/-- The glyph of the `Display` implementation: `'◻'` for dead, `'◼'` for alive. -/
def Cell.symbol (c : Cell) : Char :=
  if c = Cell.Dead then '◻' else '◼'

/-- Model of `slice::chunks`: split into sub-slices of length `w` (last one possibly
shorter). Rust panics on `w = 0`; that case is made empty here and is guarded
by `Universe.render` returning `none` instead. -/
def chunksOf (w : Nat) (l : List Cell) : List (List Cell) :=
  if hw : w = 0 then []
  else if hl : l = [] then []
  else l.take w :: chunksOf w (l.drop w)
termination_by l.length
decreasing_by
  simp only [List.length_drop]
  have hlen : 0 < l.length := List.length_pos.mpr hl
  omega

/-- Model of `Universe::render` via the `Display` implementation: one line per
width-sized chunk, one glyph per cell, a newline after each line. The `w = 0`
case is `none` because `chunks(0)` panics in Rust. -/
def Universe.render (u : Universe) : Option String :=
  if u.width = 0 then none
  else some (String.join ((chunksOf u.width u.cells).map (fun line =>
    String.mk (line.map Cell.symbol) ++ "\n")))

/-! ### Spec-side definitions (written from the spec's words, for the
refinement claims) -/

/-- From the spec, §4.2: the sum, over the 8 combinations of
`deltaRow ∈ {height-1, 0, 1}` and `deltaCol ∈ {width-1, 0, 1}` excluding
`(0, 0)`, of the numeric value of the cell at linear position
`((row + deltaRow) mod height) * width + ((column + deltaCol) mod width)`. -/
def specNeighborSum (u : Universe) (row column : Nat) : Nat :=
  ((([u.height - 1, 0, 1].flatMap (fun dr =>
      [u.width - 1, 0, 1].map (fun dc => (dr, dc)))).filter
        (fun p => !(p.1 == 0 && p.2 == 0))).map
    (fun p => (u.cells.getD
      (((row + p.1) % u.height) * u.width + ((column + p.2) % u.width))
      Cell.Dead).toNat)).sum

/-- From the spec, §4.4: the ordered rule set deciding the next state from the
current state and the live-neighbor count. -/
def specNextCell (state : Cell) (liveNeighbors : Nat) : Cell :=
  if state = Cell.Alive ∧ liveNeighbors < 2 then Cell.Dead
  else if state = Cell.Alive ∧ (liveNeighbors = 2 ∨ liveNeighbors = 3) then Cell.Alive
  else if state = Cell.Alive ∧ liveNeighbors > 3 then Cell.Dead
  else if state = Cell.Dead ∧ liveNeighbors = 3 then Cell.Alive
  else state

/-- From the spec, §6: `height` lines in row order, each of `width` glyphs
(one per cell), each terminated by a newline. -/
def specRender (u : Universe) : String :=
  String.join ((List.range u.height).map (fun row =>
    String.mk ((List.range u.width).map (fun col =>
      Cell.symbol (u.cells.getD (row * u.width + col) Cell.Dead))) ++ "\n"))

/-! ### Pure counterparts of the `Option`-level code, used to state and prove
the characterizations. -/

/-- The accumulator loop of `live_neighbor_count` with total (`getD`) reads;
`live_neighbor_count` is proved to agree with it whenever the buffer is
well-formed. -/
def lncPure (u : Universe) (row column : Nat) : Nat :=
  [u.height - 1, 0, 1].foldl (fun count delta_row =>
    [u.width - 1, 0, 1].foldl (fun count delta_col =>
      if delta_row = 0 ∧ delta_col = 0 then count
      else count +
        (u.cells.getD
          (u.get_index ((row + delta_row) % u.height) ((column + delta_col) % u.width))
          Cell.Dead).toNat) count) 0

/-- The double loop of `tick` with total reads and writes. -/
def tickPure (u : Universe) : Universe :=
  { u with cells := (List.range u.height).foldl (fun next row =>
      (List.range u.width).foldl (fun next col =>
        next.set (u.get_index row col)
          (nextCellOf (u.cells.getD (u.get_index row col) Cell.Dead) (lncPure u row col)))
        next) u.cells }

/-! ### Concrete grids used to instantiate the theorems -/

/-- A 3×3 grid with only the center cell `(1, 1)` alive. -/
def centerAlive3 : Universe :=
  ⟨3, 3, [Cell.Dead, Cell.Dead, Cell.Dead,
          Cell.Dead, Cell.Alive, Cell.Dead,
          Cell.Dead, Cell.Dead, Cell.Dead]⟩

/-- A 2×2 grid with every cell dead. -/
def allDead2 : Universe :=
  ⟨2, 2, [Cell.Dead, Cell.Dead, Cell.Dead, Cell.Dead]⟩

/-- A 2×2 grid whose only live cell is at `(0, 0)`. -/
def originAlive2 : Universe :=
  ⟨2, 2, [Cell.Alive, Cell.Dead, Cell.Dead, Cell.Dead]⟩

/-! ### Basic helper lemmas -/

lemma Cell.toNat_le_one (c : Cell) : c.toNat ≤ 1 := by
  cases c <;> simp [Cell.toNat]

lemma getElem?_eq_some_getD {l : List Cell} {i : Nat} (h : i < l.length) :
    l[i]? = some (l.getD i Cell.Dead) := by
  rw [List.getElem?_eq_getElem h, List.getD_eq_getElem l _ h]

/-- Any row-major index built from in-range coordinates is in bounds. -/
lemma index_lt {h w nr nc : Nat} (hr : nr < h) (hc : nc < w) :
    nr * w + nc < w * h := by
  calc nr * w + nc < nr * w + w := by omega
    _ = (nr + 1) * w := by ring
    _ ≤ h * w := Nat.mul_le_mul_right w hr
    _ = w * h := Nat.mul_comm h w

lemma wrapped_index_lt (u : Universe) (hh : 0 < u.height) (hw : 0 < u.width)
    (hlen : u.cells.length = u.width * u.height) (a b : Nat) :
    u.get_index (a % u.height) (b % u.width) < u.cells.length := by
  rw [hlen]
  exact index_lt (Nat.mod_lt a hh) (Nat.mod_lt b hw)

/-! ### `live_neighbor_count` computes `lncPure` -/

/-- One row of the neighbor loop: the `Option`-level fold succeeds and agrees
with the total fold, for any sequence of column deltas. -/
lemma lnc_fold_eq (u : Universe) (hh : 0 < u.height) (hw : 0 < u.width)
    (hlen : u.cells.length = u.width * u.height) (row column dr : Nat) :
    ∀ (dcs : List Nat) (count : Nat),
      (dcs.foldlM (fun count delta_col =>
          if dr = 0 ∧ delta_col = 0 then
            pure count
          else
            (u.cells[u.get_index ((row + dr) % u.height)
              ((column + delta_col) % u.width)]?).map (fun c => count + c.toNat)) count
        : Option Nat)
      = some (dcs.foldl (fun count delta_col =>
          if dr = 0 ∧ delta_col = 0 then count
          else count +
            (u.cells.getD
              (u.get_index ((row + dr) % u.height) ((column + delta_col) % u.width))
              Cell.Dead).toNat) count)
  | [], count => rfl
  | dc :: dcs, count => by
    have hidx := wrapped_index_lt u hh hw hlen (row + dr) (column + dc)
    rw [List.foldlM_cons, List.foldl_cons]
    by_cases hskip : dr = 0 ∧ dc = 0
    · rw [if_pos hskip, if_pos hskip]
      rw [show (pure count : Option Nat) = some count from rfl]
      rw [Option.bind_eq_bind', Option.some_bind']
      exact lnc_fold_eq u hh hw hlen row column dr dcs count
    · rw [if_neg hskip, if_neg hskip, getElem?_eq_some_getD hidx]
      rw [show (some (u.cells.getD
            (u.get_index ((row + dr) % u.height) ((column + dc) % u.width))
            Cell.Dead)).map (fun c => count + c.toNat)
          = some (count + (u.cells.getD
              (u.get_index ((row + dr) % u.height) ((column + dc) % u.width))
              Cell.Dead).toNat) from rfl]
      rw [Option.bind_eq_bind', Option.some_bind']
      exact lnc_fold_eq u hh hw hlen row column dr dcs _

/-- The `Option`-level `live_neighbor_count` succeeds on every well-formed grid
and returns exactly the total accumulator `lncPure`. -/
lemma lnc_eq_lncPure (u : Universe) (hh : 0 < u.height) (hw : 0 < u.width)
    (hlen : u.cells.length = u.width * u.height) (row column : Nat) :
    u.live_neighbor_count row column = some (lncPure u row column) := by
  unfold Universe.live_neighbor_count lncPure
  rw [List.foldlM_cons]
  rw [lnc_fold_eq u hh hw hlen row column]
  rw [Option.bind_eq_bind', Option.some_bind', List.foldlM_cons]
  rw [lnc_fold_eq u hh hw hlen row column]
  rw [Option.bind_eq_bind', Option.some_bind', List.foldlM_cons]
  rw [lnc_fold_eq u hh hw hlen row column]
  rw [Option.bind_eq_bind', Option.some_bind', List.foldlM_nil]
  simp

/-- The accumulator loop computes exactly the spec's 8-term neighbor sum. -/
lemma lncPure_eq_spec (u : Universe) (row column : Nat) :
    lncPure u row column = specNeighborSum u row column := by
  by_cases h1 : u.height - 1 = 0 <;> by_cases h2 : u.width - 1 = 0 <;>
    simp [lncPure, specNeighborSum, h1, h2, Universe.get_index] <;> omega

/-- The spec's neighbor sum has at most 8 summands, each at most 1. -/
lemma specNeighborSum_le_8 (u : Universe) (row column : Nat) :
    specNeighborSum u row column ≤ 8 := by
  unfold specNeighborSum
  refine le_trans (List.sum_le_card_nsmul _ 1 ?_) ?_
  · intro x hx
    simp only [List.mem_map] at hx
    obtain ⟨p, _, rfl⟩ := hx
    exact Cell.toNat_le_one _
  · rw [List.length_map, smul_eq_mul, mul_one]
    by_cases h1 : u.height - 1 = 0 <;> by_cases h2 : u.width - 1 = 0 <;>
      simp [h1, h2]

/-! ### `tick` computes `tickPure` -/

lemma getD_set (l : List Cell) (i j : Nat) (a : Cell) :
    (l.set i a).getD j Cell.Dead =
      if i = j ∧ j < l.length then a else l.getD j Cell.Dead := by
  by_cases hj : j < l.length
  · have hj' : j < (l.set i a).length := by simpa using hj
    rw [List.getD_eq_getElem _ _ hj', List.getD_eq_getElem _ _ hj, List.getElem_set]
    by_cases hij : i = j <;> simp [hij, hj]
  · rw [List.getD_eq_default _ _ (by simpa using Nat.le_of_not_lt hj),
      List.getD_eq_default _ _ (Nat.le_of_not_lt hj)]
    simp [hj]

lemma setCell_eq {l : List Cell} {idx : Nat} (h : idx < l.length) (c : Cell) :
    setCell l idx c = some (l.set idx c) := if_pos h

/-- One row of the `tick` loop: the `Option`-level fold succeeds and agrees
with the total fold, for any sequence of in-range column indices. -/
lemma tick_fold_eq (u : Universe) (hh : 0 < u.height) (hw : 0 < u.width)
    (hlen : u.cells.length = u.width * u.height) (row : Nat) (hr : row < u.height) :
    ∀ (cs : List Nat) (next : List Cell), next.length = u.cells.length →
      (∀ c ∈ cs, c < u.width) →
      (cs.foldlM (fun next col => do
          let cell ← u.cells[u.get_index row col]?
          let live_neighbors ← u.live_neighbor_count row col
          setCell next (u.get_index row col) (nextCellOf cell live_neighbors)) next
        : Option (List Cell))
      = some (cs.foldl (fun next col =>
          next.set (u.get_index row col)
            (nextCellOf (u.cells.getD (u.get_index row col) Cell.Dead)
              (lncPure u row col))) next)
  | [], next, _, _ => rfl
  | c :: cs, next, hnext, hcs => by
    have hc : c < u.width := hcs c (List.mem_cons_self c cs)
    have hidx : u.get_index row c < u.cells.length := by
      rw [hlen]; exact index_lt hr hc
    have hidx' : u.get_index row c < next.length := by rw [hnext]; exact hidx
    rw [List.foldlM_cons, List.foldl_cons]
    rw [getElem?_eq_some_getD hidx]
    simp only [Option.bind_eq_bind', Option.some_bind']
    rw [lnc_eq_lncPure u hh hw hlen row c]
    simp only [Option.bind_eq_bind', Option.some_bind']
    rw [setCell_eq hidx']
    simp only [Option.bind_eq_bind', Option.some_bind']
    exact tick_fold_eq u hh hw hlen row hr cs _
      (by rw [List.length_set]; exact hnext)
      (fun x hx => hcs x (List.mem_cons_of_mem c hx))

/-- All rows of the `tick` loop: the `Option`-level fold succeeds and agrees
with the total fold, for any sequence of in-range row indices. -/
lemma tick_rows_eq (u : Universe) (hh : 0 < u.height) (hw : 0 < u.width)
    (hlen : u.cells.length = u.width * u.height) :
    ∀ (rs : List Nat) (next : List Cell), next.length = u.cells.length →
      (∀ r ∈ rs, r < u.height) →
      (rs.foldlM (fun next row =>
          (List.range u.width).foldlM (fun next col => do
            let cell ← u.cells[u.get_index row col]?
            let live_neighbors ← u.live_neighbor_count row col
            setCell next (u.get_index row col) (nextCellOf cell live_neighbors)) next)
          next
        : Option (List Cell))
      = some (rs.foldl (fun next row =>
          (List.range u.width).foldl (fun next col =>
            next.set (u.get_index row col)
              (nextCellOf (u.cells.getD (u.get_index row col) Cell.Dead)
                (lncPure u row col))) next) next)
  | [], next, _, _ => rfl
  | r :: rs, next, hnext, hrs => by
    have hr : r < u.height := hrs r (List.mem_cons_self r rs)
    rw [List.foldlM_cons, List.foldl_cons]
    rw [tick_fold_eq u hh hw hlen r hr (List.range u.width) next hnext
      (fun c hc => List.mem_range.mp hc)]
    rw [Option.bind_eq_bind', Option.some_bind']
    refine tick_rows_eq u hh hw hlen rs _ ?_
      (fun x hx => hrs x (List.mem_cons_of_mem r hx))
    rw [← hnext]
    generalize next = l
    induction (List.range u.width) generalizing l with
    | nil => rfl
    | cons a as ih => rw [List.foldl_cons, ih, List.length_set]

/-- Lemma that `tick` succeeds on every well-formed grid and produces exactly the total
double loop `tickPure`. -/
lemma tick_eq_tickPure (u : Universe) (hh : 0 < u.height) (hw : 0 < u.width)
    (hlen : u.cells.length = u.width * u.height) :
    u.tick = some (tickPure u) := by
  unfold Universe.tick tickPure
  rw [tick_rows_eq u hh hw hlen (List.range u.height) u.cells rfl
    (fun r hr => List.mem_range.mp hr)]
  simp only [Option.bind_eq_bind', Option.some_bind']
  rfl

/-- One row of the pure loop: length preservation. -/
lemma tickRow_length (u : Universe) (row : Nat) :
    ∀ (cs : List Nat) (next : List Cell),
      (cs.foldl (fun next col =>
        next.set (u.get_index row col)
          (nextCellOf (u.cells.getD (u.get_index row col) Cell.Dead)
            (lncPure u row col))) next).length = next.length
  | [], _ => rfl
  | c :: cs, next => by
    rw [List.foldl_cons, tickRow_length u row cs, List.length_set]

/-- All rows of the pure loop: length preservation. -/
lemma tickRows_length (u : Universe) :
    ∀ (rs : List Nat) (next : List Cell),
      (rs.foldl (fun next row =>
        (List.range u.width).foldl (fun next col =>
          next.set (u.get_index row col)
            (nextCellOf (u.cells.getD (u.get_index row col) Cell.Dead)
              (lncPure u row col))) next) next).length = next.length
  | [], _ => rfl
  | r :: rs, next => by
    rw [List.foldl_cons, tickRows_length u rs, tickRow_length u r]

/-- Position access through one row of the pure loop: a position inside the
row's index window gets the freshly computed cell, every other position is
untouched. -/
lemma tickRow_getD (u : Universe) (row : Nat) :
    ∀ (m : Nat) (next : List Cell) (j : Nat),
      (((List.range m).foldl (fun next col =>
          next.set (u.get_index row col)
            (nextCellOf (u.cells.getD (u.get_index row col) Cell.Dead)
              (lncPure u row col))) next).getD j Cell.Dead)
      = if row * u.width ≤ j ∧ j < row * u.width + m ∧ j < next.length
        then nextCellOf (u.cells.getD j Cell.Dead) (lncPure u row (j - row * u.width))
        else next.getD j Cell.Dead
  | 0, next, j => by
    rw [List.range_zero, List.foldl_nil]
    have : ¬(row * u.width ≤ j ∧ j < row * u.width + 0 ∧ j < next.length) := by omega
    rw [if_neg this]
  | m + 1, next, j => by
    rw [List.range_succ, List.foldl_append, List.foldl_cons, List.foldl_nil]
    rw [getD_set, tickRow_length u row, tickRow_getD u row m next j]
    simp only [Universe.get_index]
    by_cases hj : row * u.width + m = j
    · subst hj
      by_cases hlen : row * u.width + m < next.length
      · rw [if_pos ⟨rfl, hlen⟩,
          if_pos ⟨by omega, by omega, hlen⟩, Nat.add_sub_cancel_left]
      · rw [if_neg (by omega), if_neg (by omega), if_neg (by omega)]
    · rw [if_neg (by omega)]
      by_cases hwin : row * u.width ≤ j ∧ j < row * u.width + m ∧ j < next.length
      · rw [if_pos hwin, if_pos ⟨by omega, by omega, by omega⟩]
      · rw [if_neg hwin, if_neg (by omega)]

/-- Position access through the whole pure loop: position `r * width + c`
holds the cell computed from the pre-tick state at `(r, c)`. -/
lemma tickRows_getD (u : Universe) (hw : 0 < u.width) :
    ∀ (n : Nat) (l : List Cell), l = u.cells → ∀ (r c : Nat), r < n → c < u.width →
      r * u.width + c < l.length →
      (((List.range n).foldl (fun next row =>
          (List.range u.width).foldl (fun next col =>
            next.set (u.get_index row col)
              (nextCellOf (u.cells.getD (u.get_index row col) Cell.Dead)
                (lncPure u row col))) next) l).getD (r * u.width + c) Cell.Dead)
      = nextCellOf (u.cells.getD (r * u.width + c) Cell.Dead) (lncPure u r c)
  | 0, l, _, r, c, hr, _, _ => absurd hr (Nat.not_lt_zero r)
  | n + 1, l, hl, r, c, hr, hc, hj => by
    rw [List.range_succ, List.foldl_append, List.foldl_cons, List.foldl_nil]
    rw [tickRow_getD u n u.width _ (r * u.width + c)]
    rw [tickRows_length u (List.range n) l]
    by_cases hrn : r = n
    · subst hrn
      rw [if_pos ⟨Nat.le_add_right _ _, by omega, hj⟩, Nat.add_sub_cancel_left]
    · have hrn' : r < n := by omega
      have : ¬(n * u.width ≤ r * u.width + c ∧ r * u.width + c < n * u.width + u.width
          ∧ r * u.width + c < l.length) := by
        have : r * u.width + c < n * u.width := by
          calc r * u.width + c < r * u.width + u.width := by omega
            _ = (r + 1) * u.width := by ring
            _ ≤ n * u.width := Nat.mul_le_mul_right u.width (by omega)
        omega
      rw [if_neg this]
      exact tickRows_getD u hw n l hl r c hrn' hc hj

/-- The cell written by `tickPure` at `(row, column)` is the rule applied to
the pre-tick cell and neighbor count. -/
lemma tickPure_getD (u : Universe) (hw : 0 < u.width)
    (hlen : u.cells.length = u.width * u.height) (row column : Nat)
    (hr : row < u.height) (hc : column < u.width) :
    (tickPure u).cells.getD (row * u.width + column) Cell.Dead
      = nextCellOf (u.cells.getD (row * u.width + column) Cell.Dead)
          (lncPure u row column) := by
  show (((List.range u.height).foldl _ u.cells).getD _ _) = _
  exact tickRows_getD u hw u.height u.cells rfl row column hr hc
    (by rw [hlen]; exact index_lt hr hc)

/-- The source's `match` and the spec's ordered rule list agree on every
state/count combination. -/
lemma nextCellOf_eq_spec (cell : Cell) (n : Nat) :
    nextCellOf cell n = specNextCell cell n := by
  cases cell
  · unfold nextCellOf specNextCell
    rcases n with _ | _ | _ | _ | n <;> simp
  · unfold nextCellOf specNextCell
    split_ifs <;> simp_all <;> omega

/-- Adding a delta keeps a reduced residue fixed exactly when the delta is a
multiple of the modulus. -/
lemma add_mod_eq_self_iff {h row x : Nat} (hr : row < h) :
    (row + x) % h = row ↔ x % h = 0 := by
  have hh : 0 < h := by omega
  have hy : x % h < h := Nat.mod_lt x hh
  rw [Nat.add_mod, Nat.mod_eq_of_lt hr]
  by_cases hcase : row + x % h < h
  · rw [Nat.mod_eq_of_lt hcase]; omega
  · have hlt : row + x % h - h < h := by omega
    rw [Nat.mod_eq_sub_mod (by omega), Nat.mod_eq_of_lt hlt]
    omega

/-- Row-major decomposition is unique when the column part is reduced. -/
lemma rowcol_unique {w r1 c1 r2 c2 : Nat} (h1 : c1 < w) (h2 : c2 < w)
    (h : r1 * w + c1 = r2 * w + c2) : r1 = r2 ∧ c1 = c2 := by
  have hr : r1 = r2 := by
    rcases Nat.lt_trichotomy r1 r2 with hlt | heq | hgt
    · have : r1 * w + c1 < r2 * w + c2 := by
        calc r1 * w + c1 < r1 * w + w := by omega
          _ = (r1 + 1) * w := by ring
          _ ≤ r2 * w := Nat.mul_le_mul_right w hlt
          _ ≤ r2 * w + c2 := Nat.le_add_right _ _
      omega
    · exact heq
    · have : r2 * w + c2 < r1 * w + c1 := by
        calc r2 * w + c2 < r2 * w + w := by omega
          _ = (r2 + 1) * w := by ring
          _ ≤ r1 * w := Nat.mul_le_mul_right w hgt
          _ ≤ r1 * w + c1 := Nat.le_add_right _ _
      omega
  subst hr
  exact ⟨rfl, by omega⟩

/-! ### Claim theorems -/

/-- C1: on every well-formed grid, `tick()` succeeds and the post-tick cell at
every `(row, column)` is the spec's ordered case analysis applied to that
cell's pre-tick state and pre-tick live-neighbor count. -/
theorem tick_follows_rules (u : Universe) (hw : 1 ≤ u.width) (hh : 1 ≤ u.height)
    (hlen : u.cells.length = u.width * u.height) (row column : Nat)
    (hr : row < u.height) (hc : column < u.width) :
    ∃ u', u.tick = some u' ∧
      u'.cells.getD (row * u.width + column) Cell.Dead
        = specNextCell (u.cells.getD (row * u.width + column) Cell.Dead)
            (specNeighborSum u row column) :=
  ⟨tickPure u, tick_eq_tickPure u hh hw hlen, by
    rw [tickPure_getD u hw hlen row column hr hc, nextCellOf_eq_spec,
      lncPure_eq_spec]⟩

/-- C1 witness: the 3×3 single-live-cell grid at `(1, 1)`. -/
theorem tick_follows_rules_witness :
    ∃ u', centerAlive3.tick = some u' ∧
      u'.cells.getD (1 * centerAlive3.width + 1) Cell.Dead
        = specNextCell (centerAlive3.cells.getD (1 * centerAlive3.width + 1) Cell.Dead)
            (specNeighborSum centerAlive3 1 1) :=
  tick_follows_rules centerAlive3 (by decide) (by decide) (by decide) 1 1
    (by decide) (by decide)

/-- C2: on every well-formed grid, `live_neighbor_count(row, column)` returns
exactly the spec's 8-term wrapped-neighbor sum. -/
theorem live_neighbor_count_eq_spec_sum (u : Universe) (hw : 1 ≤ u.width)
    (hh : 1 ≤ u.height) (hlen : u.cells.length = u.width * u.height)
    (row column : Nat) (hr : row < u.height) (hc : column < u.width) :
    u.live_neighbor_count row column = some (specNeighborSum u row column) := by
  rw [lnc_eq_lncPure u hh hw hlen row column, lncPure_eq_spec]

/-- C2 witness: the 3×3 single-live-cell grid at `(1, 1)`. -/
theorem live_neighbor_count_eq_spec_sum_witness :
    centerAlive3.live_neighbor_count 1 1 = some (specNeighborSum centerAlive3 1 1) :=
  live_neighbor_count_eq_spec_sum centerAlive3 (by decide) (by decide) (by decide)
    1 1 (by decide) (by decide)

/-- C4: on every well-formed grid, `tick()` and `live_neighbor_count` are
total: every computed buffer index is in bounds, so the panic branch of each
indexing operation is unreachable and both operations return a value. -/
theorem tick_total (u : Universe) (hw : 1 ≤ u.width) (hh : 1 ≤ u.height)
    (hlen : u.cells.length = u.width * u.height) :
    (u.tick).isSome = true ∧
      ∀ row column, row < u.height → column < u.width →
        (u.live_neighbor_count row column).isSome = true := by
  constructor
  · rw [tick_eq_tickPure u hh hw hlen]; rfl
  · intro row column _ _
    rw [lnc_eq_lncPure u hh hw hlen row column]; rfl

/-- C4 witness: the 3×3 single-live-cell grid. -/
theorem tick_total_witness :
    (centerAlive3.tick).isSome = true ∧
      ∀ row column, row < centerAlive3.height → column < centerAlive3.width →
        (centerAlive3.live_neighbor_count row column).isSome = true :=
  tick_total centerAlive3 (by decide) (by decide) (by decide)

/-- C6: on every well-formed grid and in-range coordinates,
`live_neighbor_count` returns a value in `[0, 8]`. -/
theorem live_neighbor_count_le_8 (u : Universe) (hw : 1 ≤ u.width)
    (hh : 1 ≤ u.height) (hlen : u.cells.length = u.width * u.height)
    (row column : Nat) (hr : row < u.height) (hc : column < u.width) :
    ∃ n, u.live_neighbor_count row column = some n ∧ n ≤ 8 :=
  ⟨lncPure u row column, lnc_eq_lncPure u hh hw hlen row column, by
    rw [lncPure_eq_spec]; exact specNeighborSum_le_8 u row column⟩

/-- C6 witness: the 3×3 single-live-cell grid at `(0, 0)`. -/
theorem live_neighbor_count_le_8_witness :
    ∃ n, centerAlive3.live_neighbor_count 0 0 = some n ∧ n ≤ 8 :=
  live_neighbor_count_le_8 centerAlive3 (by decide) (by decide) (by decide)
    0 0 (by decide) (by decide)

/-! ### Length and dimension preservation -/

lemma tickPure_length (u : Universe) :
    (tickPure u).cells.length = u.cells.length := by
  show ((List.range u.height).foldl _ u.cells).length = u.cells.length
  exact tickRows_length u (List.range u.height) u.cells

/-- Any number of ticks starting from a well-formed grid preserves the
dimensions and the buffer length. -/
lemma tickN_wellformed : ∀ (n : Nat) (u u' : Universe),
    0 < u.width → 0 < u.height → u.cells.length = u.width * u.height →
    Universe.tickN n u = some u' →
    u'.width = u.width ∧ u'.height = u.height ∧ u'.cells.length = u.cells.length
  | 0, u, u', _, _, _, h => by
    cases h
    exact ⟨rfl, rfl, rfl⟩
  | n + 1, u, u', hw, hh, hlen, h => by
    unfold Universe.tickN at h
    rw [tick_eq_tickPure u hh hw hlen] at h
    rw [Option.bind_eq_bind', Option.some_bind'] at h
    have hlen' : (tickPure u).cells.length = (tickPure u).width * (tickPure u).height := by
      rw [tickPure_length]; exact hlen
    obtain ⟨hw', hh', hl'⟩ := tickN_wellformed n (tickPure u) u' hw hh hlen' h
    exact ⟨hw', hh', by rw [hl', tickPure_length]⟩

lemma new_length :
    Universe.new.cells.length = Universe.new.width * Universe.new.height := by
  simp [Universe.new]

/-- C3: every grid produced by `create()` followed by any number of `tick()`
calls keeps `cells.length = width * height`; and a single `tick()` on any
well-formed grid never changes the buffer length. -/
theorem buffer_length_invariant :
    (∀ (n : Nat) (u' : Universe), Universe.tickN n Universe.new = some u' →
      u'.cells.length = u'.width * u'.height) ∧
    (∀ (u u' : Universe), 0 < u.width → 0 < u.height →
      u.cells.length = u.width * u.height → u.tick = some u' →
      u'.cells.length = u.cells.length) := by
  constructor
  · intro n u' h
    obtain ⟨hw', hh', hlen'⟩ :=
      tickN_wellformed n Universe.new u' (by decide) (by decide) new_length h
    rw [hlen', hw', hh', new_length]
  · intro u u' hw hh hlen h
    rw [tick_eq_tickPure u hh hw hlen] at h
    cases h
    exact tickPure_length u

/-- C3 witness: `create()` itself (zero ticks), and one tick of the all-dead
2×2 grid. -/
theorem buffer_length_invariant_witness :
    Universe.new.cells.length = Universe.new.width * Universe.new.height ∧
      allDead2.cells.length = allDead2.cells.length :=
  ⟨buffer_length_invariant.1 0 Universe.new rfl,
    buffer_length_invariant.2 allDead2 allDead2 (by decide) (by decide)
      (by decide) (by decide)⟩

/-- C9: whenever `tick()` succeeds it leaves `width` and `height` unchanged;
only the cell buffer is replaced. -/
theorem tick_preserves_dimensions (u u' : Universe) (h : u.tick = some u') :
    u'.width = u.width ∧ u'.height = u.height := by
  unfold Universe.tick at h
  rw [Option.bind_eq_bind', Option.bind_eq_some] at h
  obtain ⟨next, _, hpure⟩ := h
  obtain rfl : ({ u with cells := next } : Universe) = u' := Option.some.inj hpure
  exact ⟨rfl, rfl⟩

/-- C9 witness: one tick of the all-dead 2×2 grid. -/
theorem tick_preserves_dimensions_witness :
    allDead2.width = allDead2.width ∧ allDead2.height = allDead2.height :=
  tick_preserves_dimensions allDead2 allDead2 (by decide)

/-- C5: `create()` yields a 64×64 grid whose cell `i` is alive exactly when
`i % 2 = 0` or `i % 7 = 0`, for every `i < 4096`. -/
theorem create_seeds (i : Nat) (hi : i < 4096) :
    Universe.new.width = 64 ∧ Universe.new.height = 64 ∧
      (Universe.new.cells.getD i Cell.Dead = Cell.Alive ↔ i % 2 = 0 ∨ i % 7 = 0) := by
  refine ⟨rfl, rfl, ?_⟩
  simp only [Universe.new]
  have hlen : i < ((List.range (64 * 64)).map fun i =>
      if i % 2 = 0 ∨ i % 7 = 0 then Cell.Alive else Cell.Dead).length := by
    rw [List.length_map, List.length_range]; omega
  rw [List.getD_eq_getElem _ _ hlen, List.getElem_map, List.getElem_range]
  by_cases h : i % 2 = 0 ∨ i % 7 = 0 <;> simp [h]

/-- C5 witness: cell 14 (even, hence alive). -/
theorem create_seeds_witness :
    Universe.new.width = 64 ∧ Universe.new.height = 64 ∧
      (Universe.new.cells.getD 14 Cell.Dead = Cell.Alive ↔
        14 % 2 = 0 ∨ 14 % 7 = 0) :=
  create_seeds 14 (by decide)

/-- C7: on the 3×3 grid with only `(1, 1)` alive, the center's live-neighbor
count is 0 and one tick leaves all 9 cells dead. -/
theorem single_live_cell_dies :
    centerAlive3.live_neighbor_count 1 1 = some 0 ∧
      centerAlive3.tick = some ⟨3, 3, [Cell.Dead, Cell.Dead, Cell.Dead,
        Cell.Dead, Cell.Dead, Cell.Dead, Cell.Dead, Cell.Dead, Cell.Dead]⟩ := by
  exact ⟨by decide, by decide⟩

/-! ### Rendering -/

/-- A buffer of length `h * w` splits into exactly `h` width-`w` chunks. -/
lemma chunksOf_eq (w : Nat) (hw : 0 < w) :
    ∀ (h : Nat) (l : List Cell), l.length = h * w →
      chunksOf w l = (List.range h).map (fun r => (l.drop (r * w)).take w)
  | 0, l, hlen => by
    have hnil : l = [] := List.length_eq_zero.mp (by omega)
    subst hnil
    unfold chunksOf
    simp
  | h + 1, l, hlen => by
    have hne : l ≠ [] := by
      intro heq
      rw [heq] at hlen
      simp at hlen
      omega
    unfold chunksOf
    rw [dif_neg (by omega), dif_neg hne]
    rw [List.range_succ_eq_map, List.map_cons, List.map_map]
    have hdrop : (l.drop w).length = h * w := by
      rw [List.length_drop, hlen]; ring_nf; omega
    rw [chunksOf_eq w hw h (l.drop w) hdrop]
    congr 1
    · rw [Nat.zero_mul, List.drop_zero]
    · apply List.map_congr_left
      intro r _
      show ((l.drop w).drop (r * w)).take w = (l.drop (Nat.succ r * w)).take w
      rw [List.drop_drop]
      congr 2
      rw [Nat.succ_mul]
      omega

/-- A width-`w` window of the buffer, rendered cell by cell, is the spec's
per-column glyph list. -/
lemma take_drop_map_symbol (l : List Cell) (w a : Nat) (hw : a + w ≤ l.length) :
    ((l.drop a).take w).map Cell.symbol
      = (List.range w).map (fun c => Cell.symbol (l.getD (a + c) Cell.Dead)) := by
  apply List.ext_getElem
  · simp only [List.length_map, List.length_take, List.length_drop,
      List.length_range]
    omega
  · intro i h1 h2
    have hi : i < w := by
      simp only [List.length_map, List.length_range] at h2
      exact h2
    have hai : a + i < l.length := by omega
    rw [List.getElem_map, List.getElem_map, List.getElem_take, List.getElem_drop,
      List.getElem_range, List.getD_eq_getElem _ _ hai]

/-- C8: on every well-formed grid, `render()` succeeds and produces exactly
`height` newline-terminated lines of `width` glyphs in row order, one glyph
per cell. -/
theorem render_matches_spec (u : Universe) (hw : 1 ≤ u.width) (hh : 1 ≤ u.height)
    (hlen : u.cells.length = u.width * u.height) :
    u.render = some (specRender u) := by
  unfold Universe.render specRender
  rw [if_neg (by omega)]
  congr 1
  rw [chunksOf_eq u.width (by omega) u.height u.cells (by rw [hlen]; ring)]
  rw [List.map_map]
  congr 1
  apply List.map_congr_left
  intro r hr
  have hrh : r < u.height := List.mem_range.mp hr
  have hbound : r * u.width + u.width ≤ u.cells.length := by
    rw [hlen]
    calc r * u.width + u.width = (r + 1) * u.width := by ring
      _ ≤ u.height * u.width := Nat.mul_le_mul_right _ (by omega)
      _ = u.width * u.height := Nat.mul_comm _ _
  show String.mk (((u.cells.drop (r * u.width)).take u.width).map Cell.symbol) ++ "\n" = _
  rw [take_drop_map_symbol u.cells u.width (r * u.width) hbound]

/-- C8 witness: the all-dead 2×2 grid renders as two newline-terminated lines
of two hollow squares. -/
theorem render_matches_spec_witness :
    allDead2.render = some "◻◻\n◻◻\n" := by
  rw [render_matches_spec allDead2 (by decide) (by decide) (by decide)]
  decide

/-! ### Independence of the neighbor count from the center cell -/

/-- No wrapped neighbor index coincides with the center index once both
dimensions are at least 2. -/
lemma neighbor_ne_center {h w row column dr dc : Nat} (hh2 : 2 ≤ h) (hw2 : 2 ≤ w)
    (hr : row < h) (hc : column < w)
    (hdr : dr = h - 1 ∨ dr = 0 ∨ dr = 1) (hdc : dc = w - 1 ∨ dc = 0 ∨ dc = 1)
    (hskip : ¬(dr = 0 ∧ dc = 0)) :
    ((row + dr) % h) * w + ((column + dc) % w) ≠ row * w + column := by
  intro heq
  obtain ⟨hrow, hcol⟩ := rowcol_unique (Nat.mod_lt _ (by omega)) hc heq
  have hdr0 : dr = 0 := by
    have h0 : dr % h = 0 := (add_mod_eq_self_iff hr).mp hrow
    rcases hdr with h1 | h1 | h1 <;> subst h1
    · rw [Nat.mod_eq_of_lt (by omega)] at h0; omega
    · rfl
    · rw [Nat.mod_eq_of_lt (by omega)] at h0; omega
  have hdc0 : dc = 0 := by
    have h0 : dc % w = 0 := (add_mod_eq_self_iff hc).mp hcol
    rcases hdc with h1 | h1 | h1 <;> subst h1
    · rw [Nat.mod_eq_of_lt (by omega)] at h0; omega
    · rfl
    · rw [Nat.mod_eq_of_lt (by omega)] at h0; omega
  exact hskip ⟨hdr0, hdc0⟩

/-- C10: `live_neighbor_count(row, column)` does not depend on the cell at
`(row, column)` itself, on grids with both dimensions at least 2. -/
theorem lnc_ignores_center (u v : Universe) (hww : v.width = u.width)
    (hhh : v.height = u.height) (hw2 : 2 ≤ u.width) (hh2 : 2 ≤ u.height)
    (hlenu : u.cells.length = u.width * u.height)
    (hlenv : v.cells.length = v.width * v.height)
    (row column : Nat) (hr : row < u.height) (hc : column < u.width)
    (hdiff : ∀ j, j ≠ row * u.width + column →
      u.cells.getD j Cell.Dead = v.cells.getD j Cell.Dead) :
    u.live_neighbor_count row column = v.live_neighbor_count row column := by
  rw [lnc_eq_lncPure u (by omega) (by omega) hlenu row column,
    lnc_eq_lncPure v (by rw [hhh]; omega) (by rw [hww]; omega) hlenv row column,
    lncPure_eq_spec, lncPure_eq_spec]
  congr 1
  unfold specNeighborSum
  rw [hww, hhh]
  congr 1
  apply List.map_congr_left
  intro p hp
  rw [List.mem_filter] at hp
  obtain ⟨hmem, hpred⟩ := hp
  rw [List.mem_flatMap] at hmem
  obtain ⟨a, ha, hb⟩ := hmem
  rw [List.mem_map] at hb
  obtain ⟨b, hbmem, rfl⟩ := hb
  simp only [List.mem_cons, List.mem_singleton, List.not_mem_nil, or_false] at ha hbmem
  have hskip : ¬(a = 0 ∧ b = 0) := by
    intro ⟨ha0, hb0⟩
    subst ha0; subst hb0
    simp at hpred
  congr 1
  exact hdiff _ (neighbor_ne_center hh2 hw2 hr hc ha hbmem hskip)

/-- C10 witness: two 2×2 grids differing only in the cell at `(0, 0)`. -/
theorem lnc_ignores_center_witness :
    originAlive2.live_neighbor_count 0 0 = allDead2.live_neighbor_count 0 0 := by
  apply lnc_ignores_center originAlive2 allDead2 (by decide) (by decide)
    (by decide) (by decide) (by decide) (by decide) 0 0 (by decide) (by decide)
  intro j hj
  rcases j with _ | _ | _ | _ | j
  · exact absurd rfl hj
  · rfl
  · rfl
  · rfl
  · rfl

end GoL
